import Mathlib

/-!
Verification development for the xray-sdk decision-capture engine.

The definitions below are a shallow embedding of the Python sources:
  * `src/xray/sampler.py`   — `DecisionSampler.sample`, `DecisionSampler.compute_stats`
  * `src/api/routes/ingest.py` — the `record_step` ingestion pipeline
  * `src/xray/config.py`    — the storage guardrail limits

Python dictionaries keyed by strings are embedded as association lists
(`List (String × _)`) with first-key lookup, which matches `dict` insertion
order and `dict.get` semantics.  `random.sample(items, k)` is embedded as an
explicit `pick` parameter together with the predicate `ValidPick` stating
exactly what `random.sample` guarantees: a result of length `k` drawn without
replacement from `items` (a sub-permutation).  Machine floats only appear as
`rejection_rate`; it is embedded as an exact rational.
-/

namespace XRay

/-- The `decision_type` of `xray.models.Decision`: `Literal["accepted", "rejected", "pending"]`. -/
inductive DType where
  | accepted
  | rejected
  | pending
deriving DecidableEq

/-- Embeds `xray.models.Decision` (pydantic model).  `metadata: dict[str, Any] | None` is
embedded as an optional association list; only integer values (the `"sequence"`
key) are ever read by the engine.  `timestamp` is an opaque stand-in. -/
structure Decision where
  candidate_id : String
  decision_type : DType
  reason : Option String
  score : Option Rat
  metadata : Option (List (String × Int))
  timestamp : Option Int
deriving DecidableEq

/-- Embeds `xray.models.Evidence`; `data` is an opaque structured payload. -/
structure Evidence where
  evidence_type : String
  data : List (String × String)
  timestamp : Option Int
deriving DecidableEq

/-- Embeds `xray.sampler.DecisionSampler.__init__(threshold, per_reason)`. -/
structure DecisionSampler where
  threshold : Nat
  per_reason : Nat

/-- Default sampler configuration (`threshold=500, per_reason=50`). -/
def defaultSampler : DecisionSampler := ⟨500, 50⟩

/-- Embeds `xray.config.MAX_DECISIONS_PER_STEP`. -/
def MAX_DECISIONS_PER_STEP : Nat := 100000

/-- Embeds `xray.config.MAX_EVIDENCE_PER_STEP`. -/
def MAX_EVIDENCE_PER_STEP : Nat := 1000

/-- Normalised rejection reason: `d.reason or "unknown"`. -/
def normReason (d : Decision) : String := d.reason.getD "unknown"

def isAcceptedB (d : Decision) : Bool := decide (d.decision_type = DType.accepted)

def isRejectedB (d : Decision) : Bool := decide (d.decision_type = DType.rejected)

def isPendingB (d : Decision) : Bool := decide (d.decision_type = DType.pending)

/-- Rejected with normalised reason `r`. -/
def rejWithB (r : String) (d : Decision) : Bool :=
  isRejectedB d && decide (normReason d = r)

/-- The sort key used in `sample`:
`d.metadata.get("sequence", 0) if d.metadata else 0`. -/
def seqKey (d : Decision) : Int :=
  match d.metadata with
  | none => 0
  | some m => (m.lookup "sequence").getD 0

/-- The comparison `list.sort(key=lambda d: ...)` sorts by. -/
def seqLE (a b : Decision) : Prop := seqKey a ≤ seqKey b

instance : DecidableRel seqLE := fun a b => inferInstanceAs (Decidable (seqKey a ≤ seqKey b))

instance : IsTotal Decision seqLE := ⟨fun a b => le_total (seqKey a) (seqKey b)⟩

instance : IsTrans Decision seqLE := ⟨fun _ _ _ h₁ h₂ => le_trans h₁ h₂⟩

/-- Embeds `list.sort(key=lambda d: d.metadata.get("sequence", 0) if d.metadata else 0)`:
a stable sort by ascending `seqKey`. -/
def sortBySeq (l : List Decision) : List Decision := List.insertionSort seqLE l

/-- Keys of a Python `dict` built by insertion, with the already-seen keys
accumulated: each key is kept at its first appearance only. -/
def dedupFirstAux (seen : List String) : List String → List String
  | [] => []
  | x :: xs =>
    if seen.contains x then dedupFirstAux seen xs
    else x :: dedupFirstAux (x :: seen) xs

/-- Keys of a Python `dict` built by insertion: first occurrence of each key,
in order of first appearance (`defaultdict` iteration order). -/
def dedupFirst (l : List String) : List String := dedupFirstAux [] l

/-- The bucket `by_reason[r]`: the rejected decisions with normalised reason
`r`, in input order (`defaultdict(list)` append order). -/
def reasonGroup (ds : List Decision) (r : String) : List Decision :=
  ds.filter (rejWithB r)

/-- The iteration order of `by_reason.items()`: rejection reasons in order of
first appearance among rejected decisions. -/
def reasonList (ds : List Decision) : List String :=
  dedupFirst ((ds.filter isRejectedB).map normReason)

/-- What `random.sample(items, k)` guarantees: `k` items drawn from `items`
without replacement (in some order), for any `k ≤ len(items)`. -/
def ValidPick (pick : List Decision → Nat → List Decision) : Prop :=
  ∀ items k, k ≤ items.length →
    (pick items k).length = k ∧ List.Subperm (pick items k) items

/-- The body of the `sampled_rejected` loop: keep a reason group whole when
`len(items) <= per_reason`, otherwise draw `per_reason` items via the
pseudorandom `pick`. -/
def pickOrKeep (pick : List Decision → Nat → List Decision) (per : Nat)
    (ds : List Decision) (r : String) : List Decision :=
  let items := reasonGroup ds r
  if items.length ≤ per then items else pick items per

/-- The `sampled_rejected` loop of `DecisionSampler.sample`: successive
`extend`s over the reason groups in `by_reason.items()` order. -/
def sampleRejected (pick : List Decision → Nat → List Decision) (per : Nat)
    (ds : List Decision) : List Decision :=
  (reasonList ds).flatMap (pickOrKeep pick per ds)

/-- Embeds `DecisionSampler.sample(decisions) -> (sampled_list, was_sampled)`.
The `else` bucket of the partition loop is exactly the `pending` decisions,
since `decision_type` is three-valued. -/
def sample (s : DecisionSampler) (pick : List Decision → Nat → List Decision)
    (decisions : List Decision) : List Decision × Bool :=
  if decisions.length ≤ s.threshold then (decisions, false)
  else
    let accepted := decisions.filter isAcceptedB
    let pending := decisions.filter isPendingB
    let sampled_rejected := sampleRejected pick s.per_reason decisions
    (sortBySeq (accepted ++ sampled_rejected ++ pending), true)

/-- The stats record returned by `compute_stats`. -/
structure Stats where
  input_count : Nat
  output_count : Nat
  rejection_rate : Rat
  rejection_reasons : List (String × Nat)
deriving DecidableEq

/-- Embeds `reasons[r] = reasons.get(r, 0) + 1` on a `dict` embedded as an
association list: update in place, or append a fresh key at the end. -/
def bump : List (String × Nat) → String → List (String × Nat)
  | [], k => [(k, 1)]
  | (k', v) :: rest, k =>
    if k' = k then (k', v + 1) :: rest else (k', v) :: bump rest k

/-- Embeds `DecisionSampler.compute_stats(decisions)`. -/
def compute_stats (decisions : List Decision) : Stats :=
  if decisions.isEmpty then ⟨0, 0, 0, []⟩
  else
    let total := decisions.length
    let accepted := decisions.countP isAcceptedB
    let rejected := decisions.countP isRejectedB
    let reasons := decisions.foldl
      (fun m d => if isRejectedB d then bump m (normReason d) else m) []
    ⟨total, accepted,
      if total = 0 then 0 else (rejected : Rat) / (total : Rat), reasons⟩

/-- One step of the normalisation loop in `record_step`
(`src/api/routes/ingest.py` lines 93–106): copy the metadata and
`md.setdefault("sequence", idx)`. -/
def normalizeOne (idx : Nat) (d : Decision) : Decision :=
  let md := d.metadata.getD []
  let md' := if (md.lookup "sequence").isSome then md else md ++ [("sequence", (idx : Int))]
  Decision.mk d.candidate_id d.decision_type d.reason d.score (some md') d.timestamp

/-- The coordinator's normalisation pass: each submitted decision gets
`"sequence"` defaulted to its index in the submitted list. -/
def normalize (decisions : List Decision) : List Decision :=
  decisions.mapIdx normalizeOne

/-- Embeds `SamplingSummary(total, kept, sampled)` of the ingest route. -/
structure SamplingSummary where
  total : Nat
  kept : Nat
  sampled : Bool
deriving DecidableEq

/-- The engine-level error taxonomy of `record_step` (HTTP 413 / 400). -/
inductive StepError where
  | guardrailExceeded
  | evidenceBinding
deriving DecidableEq

/-- The persisted outcome of a successful `record_step`: the stored stats,
the sampling summary, and each stored decision paired with the evidence
bound to it (if any). -/
structure StepResult where
  stats : Option Stats
  sampling_summary : Option SamplingSummary
  stored : List (Decision × Option Evidence)
deriving DecidableEq

/-- Embeds `zip(step_input.evidence, created_decisions)`: `evidence[i]` binds to
`decision[i]`; decisions beyond `len(evidence)` stay unbound. -/
def bindEvidence : List Decision → List Evidence → List (Decision × Option Evidence)
  | [], _ => []
  | d :: ds, [] => (d, none) :: bindEvidence ds []
  | d :: ds, e :: es => (d, some e) :: bindEvidence ds es

/-- The decision list `record_step` persists: the post-sampling set, or `[]`
when no decisions were submitted (`if sdk_decisions:` falsy branch). -/
def storedDecisions (s : DecisionSampler) (pick : List Decision → Nat → List Decision)
    (decisions : List Decision) : List Decision :=
  if decisions.isEmpty then [] else (sample s pick (normalize decisions)).1

/-- The `was_sampled` flag produced inside `record_step`. -/
def stepWasSampled (s : DecisionSampler) (pick : List Decision → Nat → List Decision)
    (decisions : List Decision) : Bool :=
  if decisions.isEmpty then false else (sample s pick (normalize decisions)).2

/-- The stats `record_step` stores: computed from the full normalised set
before sampling, absent when no decisions were submitted. -/
def stepStats (decisions : List Decision) : Option Stats :=
  if decisions.isEmpty then none else some (compute_stats (normalize decisions))

/-- The `sampling_summary` of the response. -/
def stepSummary (s : DecisionSampler) (pick : List Decision → Nat → List Decision)
    (decisions : List Decision) : Option SamplingSummary :=
  if decisions.isEmpty then none
  else some ⟨decisions.length, (storedDecisions s pick decisions).length,
    stepWasSampled s pick decisions⟩

/-- Embeds `record_step` (`src/api/routes/ingest.py`), with the database collaborators
abstracted away: guardrails first (413), then normalisation, stats on the full
set, sampling, then evidence binding (400 on binding errors).  An error means
the whole submission is rejected and nothing is persisted. -/
def record_step (s : DecisionSampler) (pick : List Decision → Nat → List Decision)
    (decisions : List Decision) (evidence : List Evidence) :
    Except StepError StepResult :=
  if MAX_DECISIONS_PER_STEP < decisions.length then .error .guardrailExceeded
  else if MAX_EVIDENCE_PER_STEP < evidence.length then .error .guardrailExceeded
  else
    let stored := storedDecisions s pick decisions
    if evidence.isEmpty then
      .ok ⟨stepStats decisions, stepSummary s pick decisions,
        stored.map (fun d => (d, none))⟩
    else if stored.isEmpty then .error .evidenceBinding
    else if stored.length < evidence.length then .error .evidenceBinding
    else .ok ⟨stepStats decisions, stepSummary s pick decisions,
      bindEvidence stored evidence⟩

/-- Deterministic stand-in for one possible state of the pseudorandom source:
take the first `k` items. -/
def takePick : List Decision → Nat → List Decision := fun items k => items.take k

/-- Another possible generator state: take the last `k` items (reversed). -/
def revPick : List Decision → Nat → List Decision := fun items k => items.reverse.take k

/-- Example decisions used by the concrete witnesses below. -/
def exA : Decision := ⟨"a", DType.accepted, none, none, some [("sequence", 0)], none⟩

def exR1 : Decision := ⟨"r1", DType.rejected, some "price", none, some [("sequence", 1)], none⟩

def exR2 : Decision := ⟨"r2", DType.rejected, some "price", none, some [("sequence", 2)], none⟩

def exR3 : Decision := ⟨"r3", DType.rejected, none, none, some [("sequence", 3)], none⟩

def exP : Decision := ⟨"p", DType.pending, none, none, some [("sequence", 4)], none⟩

/-- A decision whose caller already put a `"sequence"` value in its metadata. -/
def exPre : Decision := ⟨"c", DType.accepted, none, none, some [("sequence", 99)], none⟩

/-- Example evidence record. -/
def exEv : Evidence := ⟨"llm_output", [("text", "why")], none⟩

/-! ## Theorems -/

theorem validPick_take : ValidPick takePick := by
  intro items k hk
  constructor
  · simpa [takePick] using hk
  · exact (List.take_sublist _ _).subperm

theorem validPick_rev : ValidPick revPick := by
  intro items k hk
  constructor
  · simpa [revPick] using hk
  · exact ((List.take_sublist _ _).subperm).trans (List.reverse_perm items).subperm

/-! ### General list helpers -/

theorem subperm_map {α β : Type} (f : α → β) {l₁ l₂ : List α}
    (h : List.Subperm l₁ l₂) : List.Subperm (l₁.map f) (l₂.map f) := by
  obtain ⟨l, hperm, hsub⟩ := h
  exact ⟨l.map f, hperm.map f, hsub.map f⟩

theorem subperm_nodup {α : Type} {l₁ l₂ : List α}
    (h : List.Subperm l₁ l₂) (hn : l₂.Nodup) : l₁.Nodup := by
  obtain ⟨l, hperm, hsub⟩ := h
  exact hperm.nodup_iff.1 (hn.sublist hsub)

theorem count_filter_ite {α : Type} [DecidableEq α] (p : α → Bool) (a : α)
    (l : List α) : (l.filter p).count a = if p a then l.count a else 0 := by
  split
  · exact List.count_filter (by assumption)
  · refine List.count_eq_zero.2 ?_
    intro hmem
    have := List.of_mem_filter hmem
    simp_all

theorem countP_append_three {α : Type} (p : α → Bool) (l₁ l₂ l₃ : List α) :
    (l₁ ++ l₂ ++ l₃).countP p = l₁.countP p + l₂.countP p + l₃.countP p := by
  simp [List.countP_append, Nat.add_assoc]

/-! ### Keys in first-appearance order -/

theorem mem_dedupFirstAux {a : String} :
    ∀ (l : List String) (seen : List String),
      a ∈ dedupFirstAux seen l ↔ a ∈ l ∧ a ∉ seen := by
  intro l
  induction l with
  | nil => intro seen; simp [dedupFirstAux]
  | cons x xs ih =>
    intro seen
    cases hx : seen.contains x
    · have hxs : x ∉ seen := by simpa using hx
      simp only [dedupFirstAux, hx, Bool.false_eq_true, if_false, List.mem_cons, ih]
      constructor
      · rintro (rfl | ⟨hmem, hnot⟩)
        · exact ⟨Or.inl rfl, hxs⟩
        · exact ⟨Or.inr hmem, fun hs => hnot (Or.inr hs)⟩
      · rintro ⟨rfl | hmem, hnot⟩
        · exact Or.inl rfl
        · rcases eq_or_ne a x with rfl | hax
          · exact Or.inl rfl
          · refine Or.inr ⟨hmem, fun hs => ?_⟩
            rcases hs with h | h
            · exact hax h
            · exact hnot h
    · have hxs : x ∈ seen := by simpa using hx
      simp only [dedupFirstAux, hx, if_true, ih, List.mem_cons]
      constructor
      · rintro ⟨hmem, hnot⟩
        exact ⟨Or.inr hmem, hnot⟩
      · rintro ⟨rfl | hmem, hnot⟩
        · exact absurd hxs hnot
        · exact ⟨hmem, hnot⟩

theorem mem_dedupFirst {a : String} {l : List String} :
    a ∈ dedupFirst l ↔ a ∈ l := by
  simp [dedupFirst, mem_dedupFirstAux]

theorem nodup_dedupFirstAux :
    ∀ (l : List String) (seen : List String), (dedupFirstAux seen l).Nodup := by
  intro l
  induction l with
  | nil => intro seen; simp [dedupFirstAux]
  | cons x xs ih =>
    intro seen
    cases hx : seen.contains x
    · simp only [dedupFirstAux, hx, Bool.false_eq_true, if_false]
      refine List.nodup_cons.2 ⟨?_, ih (x :: seen)⟩
      intro hmem
      exact ((mem_dedupFirstAux xs (x :: seen)).1 hmem).2 (List.mem_cons_self _ _)
    · have hxs : x ∈ seen := by simpa using hx
      simpa [dedupFirstAux, hx, hxs] using ih seen

theorem nodup_dedupFirst (l : List String) : (dedupFirst l).Nodup :=
  nodup_dedupFirstAux l []

/-! ### Bucket membership facts -/

theorem mem_reasonGroup {d : Decision} {ds : List Decision} {r : String} :
    d ∈ reasonGroup ds r ↔ d ∈ ds ∧ isRejectedB d = true ∧ normReason d = r := by
  simp [reasonGroup, List.mem_filter, rejWithB, Bool.and_eq_true, decide_eq_true_iff]

theorem mem_reasonList {r : String} {ds : List Decision} :
    r ∈ reasonList ds ↔ ∃ d ∈ ds, isRejectedB d = true ∧ normReason d = r := by
  simp only [reasonList, mem_dedupFirst, List.mem_map, List.mem_filter]
  constructor
  · rintro ⟨d, ⟨hmem, hrej⟩, hr⟩; exact ⟨d, hmem, hrej, hr⟩
  · rintro ⟨d, hmem, hrej, hr⟩; exact ⟨d, ⟨hmem, hrej⟩, hr⟩

theorem nodup_reasonList (ds : List Decision) : (reasonList ds).Nodup :=
  nodup_dedupFirst _

theorem countP_rejWithB_eq_zero_iff {ds : List Decision} {r : String} :
    ds.countP (rejWithB r) = 0 ↔ r ∉ reasonList ds := by
  rw [List.countP_eq_zero, mem_reasonList]
  constructor
  · rintro hall ⟨d, hmem, hrej, hr⟩
    exact hall d hmem (by simp [rejWithB, hrej, hr])
  · intro hno d hmem hp
    simp only [rejWithB, Bool.and_eq_true, decide_eq_true_iff] at hp
    exact hno ⟨d, hmem, hp.1, hp.2⟩

/-! ### The three-way partition of a decision list -/

theorem countP_three_partition (ds : List Decision) :
    ds.countP isAcceptedB + ds.countP isRejectedB + ds.countP isPendingB
      = ds.length := by
  induction ds with
  | nil => simp
  | cons d ds ih =>
    cases h : d.decision_type <;>
      simp [List.countP_cons, isAcceptedB, isRejectedB, isPendingB, h] <;> omega

theorem count_three_partition (a : Decision) (ds : List Decision) :
    (ds.filter isAcceptedB).count a + (ds.filter isRejectedB).count a
      + (ds.filter isPendingB).count a = ds.count a := by
  rw [count_filter_ite, count_filter_ite, count_filter_ite]
  cases h : a.decision_type <;>
    simp [isAcceptedB, isRejectedB, isPendingB, h]

/-! ### Per-reason capping -/

theorem pickOrKeep_subperm {pick : List Decision → Nat → List Decision}
    (hpick : ValidPick pick) (per : Nat) (ds : List Decision) (r : String) :
    List.Subperm (pickOrKeep pick per ds r) (reasonGroup ds r) := by
  by_cases h : (reasonGroup ds r).length ≤ per
  · simp only [pickOrKeep, if_pos h]
    exact List.Subperm.refl _
  · simp only [pickOrKeep, if_neg h]
    exact (hpick _ per (Nat.le_of_lt (Nat.lt_of_not_le h))).2

theorem mem_pickOrKeep {pick : List Decision → Nat → List Decision}
    (hpick : ValidPick pick) {per : Nat} {ds : List Decision} {r : String}
    {d : Decision} (hd : d ∈ pickOrKeep pick per ds r) : d ∈ reasonGroup ds r :=
  (pickOrKeep_subperm hpick per ds r).subset hd

theorem length_pickOrKeep {pick : List Decision → Nat → List Decision}
    (hpick : ValidPick pick) (per : Nat) (ds : List Decision) (r : String) :
    (pickOrKeep pick per ds r).length = min (reasonGroup ds r).length per := by
  by_cases h : (reasonGroup ds r).length ≤ per
  · simp only [pickOrKeep, if_pos h]
    exact (Nat.min_eq_left h).symm
  · simp only [pickOrKeep, if_neg h]
    rw [(hpick _ per (Nat.le_of_lt (Nat.lt_of_not_le h))).1]
    exact (Nat.min_eq_right (Nat.le_of_lt (Nat.lt_of_not_le h))).symm

theorem pickOrKeep_of_le {pick : List Decision → Nat → List Decision}
    {per : Nat} {ds : List Decision} {r : String}
    (h : (reasonGroup ds r).length ≤ per) :
    pickOrKeep pick per ds r = reasonGroup ds r := by
  simp only [pickOrKeep, if_pos h]

theorem countP_flatMap_tagged (p : Decision → Bool) (r : String)
    (g : String → List Decision)
    (hp : ∀ d, p d = true → isRejectedB d = true ∧ normReason d = r) :
    ∀ rs : List String, rs.Nodup →
      (∀ r' ∈ rs, ∀ d ∈ g r', isRejectedB d = true ∧ normReason d = r') →
      (rs.flatMap g).countP p = if r ∈ rs then (g r).countP p else 0 := by
  intro rs
  induction rs with
  | nil => simp
  | cons r' rs ih =>
    intro hnd htag
    have hnd' := List.nodup_cons.1 hnd
    have htag' : ∀ r'' ∈ rs, ∀ d ∈ g r'', isRejectedB d = true ∧ normReason d = r'' :=
      fun r'' h => htag r'' (List.mem_cons_of_mem _ h)
    rw [List.flatMap_cons, List.countP_append, ih hnd'.2 htag']
    rcases eq_or_ne r r' with rfl | hne
    · simp [hnd'.1]
    · have hzero : (g r').countP p = 0 := by
        refine List.countP_eq_zero.2 ?_
        intro d hd hpd
        have h1 := (hp d hpd).2
        have h2 := (htag r' (List.mem_cons_self _ _) d hd).2
        exact hne (h1 ▸ h2)
      simp [hzero, List.mem_cons, hne]

theorem countP_sampleRejected {pick : List Decision → Nat → List Decision}
    (hpick : ValidPick pick) (per : Nat) (ds : List Decision)
    (p : Decision → Bool) (r : String)
    (hp : ∀ d, p d = true → isRejectedB d = true ∧ normReason d = r) :
    (sampleRejected pick per ds).countP p
      = if r ∈ reasonList ds then (pickOrKeep pick per ds r).countP p else 0 :=
  countP_flatMap_tagged p r _ hp (reasonList ds) (nodup_reasonList ds)
    (fun _ _ d hd => by
      have h := mem_reasonGroup.1 (mem_pickOrKeep hpick hd)
      exact ⟨h.2.1, h.2.2⟩)

theorem mem_sampleRejected {pick : List Decision → Nat → List Decision}
    (hpick : ValidPick pick) {per : Nat} {ds : List Decision} {d : Decision}
    (hd : d ∈ sampleRejected pick per ds) : d ∈ ds ∧ isRejectedB d = true := by
  simp only [sampleRejected, List.mem_flatMap] at hd
  obtain ⟨r, _, hdr⟩ := hd
  have h := mem_reasonGroup.1 (mem_pickOrKeep hpick hdr)
  exact ⟨h.1, h.2.1⟩

theorem countP_rejWith_sampleRejected {pick : List Decision → Nat → List Decision}
    (hpick : ValidPick pick) (per : Nat) (ds : List Decision) (r : String) :
    (sampleRejected pick per ds).countP (rejWithB r)
      = min (ds.countP (rejWithB r)) per := by
  have hp : ∀ d, rejWithB r d = true → isRejectedB d = true ∧ normReason d = r := by
    intro d hd
    simp only [rejWithB, Bool.and_eq_true, decide_eq_true_iff] at hd
    exact hd
  rw [countP_sampleRejected hpick per ds (rejWithB r) r hp]
  have hgroup : (reasonGroup ds r).length = ds.countP (rejWithB r) :=
    (List.countP_eq_length_filter _ _).symm
  by_cases hr : r ∈ reasonList ds
  · rw [if_pos hr]
    have hall : ∀ d ∈ pickOrKeep pick per ds r, rejWithB r d = true := by
      intro d hd
      have h := mem_reasonGroup.1 (mem_pickOrKeep hpick hd)
      simp [rejWithB, h.2.1, h.2.2]
    rw [List.countP_eq_length.2 hall, length_pickOrKeep hpick, hgroup]
  · rw [if_neg hr]
    have h0 : ds.countP (rejWithB r) = 0 := countP_rejWithB_eq_zero_iff.2 hr
    simp [h0]

theorem count_sampleRejected_rejected {pick : List Decision → Nat → List Decision}
    (hpick : ValidPick pick) (per : Nat) (ds : List Decision) (a : Decision)
    (ha : isRejectedB a = true) :
    (sampleRejected pick per ds).count a
      = if normReason a ∈ reasonList ds
          then (pickOrKeep pick per ds (normReason a)).count a else 0 := by
  have hp : ∀ d, (d == a) = true → isRejectedB d = true ∧ normReason d = normReason a := by
    intro d hd
    have heq : d = a := by simpa using hd
    subst heq
    exact ⟨ha, rfl⟩
  rw [List.count_eq_countP, countP_sampleRejected hpick per ds (· == a) (normReason a) hp]
  by_cases hr : normReason a ∈ reasonList ds
  · rw [if_pos hr, if_pos hr, List.count_eq_countP]
  · rw [if_neg hr, if_neg hr]

theorem count_sampleRejected_not_rejected {pick : List Decision → Nat → List Decision}
    (hpick : ValidPick pick) {per : Nat} {ds : List Decision} {a : Decision}
    (ha : ¬ isRejectedB a = true) :
    (sampleRejected pick per ds).count a = 0 :=
  List.count_eq_zero.2 (fun hmem => ha (mem_sampleRejected hpick hmem).2)

/-! ### Counting the sampler's output -/

theorem count_sortBySeq (l : List Decision) (a : Decision) :
    (sortBySeq l).count a = l.count a :=
  (List.perm_insertionSort seqLE l).count_eq a

theorem countP_sortBySeq (p : Decision → Bool) (l : List Decision) :
    (sortBySeq l).countP p = l.countP p :=
  (List.perm_insertionSort seqLE l).countP_eq p

theorem count_sample_sampling {pick : List Decision → Nat → List Decision}
    (s : DecisionSampler) (ds : List Decision) (h : ¬ ds.length ≤ s.threshold)
    (a : Decision) :
    ((sample s pick ds).1).count a =
      (ds.filter isAcceptedB).count a
        + (sampleRejected pick s.per_reason ds).count a
        + (ds.filter isPendingB).count a := by
  simp only [sample, if_neg h]
  rw [count_sortBySeq, List.count_append, List.count_append]

theorem countP_sample_sampling {pick : List Decision → Nat → List Decision}
    (s : DecisionSampler) (ds : List Decision) (h : ¬ ds.length ≤ s.threshold)
    (p : Decision → Bool) :
    ((sample s pick ds).1).countP p =
      (ds.filter isAcceptedB).countP p
        + (sampleRejected pick s.per_reason ds).countP p
        + (ds.filter isPendingB).countP p := by
  simp only [sample, if_neg h]
  rw [countP_sortBySeq, countP_append_three]

theorem count_sample_eq {pick : List Decision → Nat → List Decision}
    (hpick : ValidPick pick) (s : DecisionSampler) (ds : List Decision)
    (h : ¬ ds.length ≤ s.threshold) (a : Decision) :
    ((sample s pick ds).1).count a =
      if isRejectedB a = true
      then (if normReason a ∈ reasonList ds
            then (pickOrKeep pick s.per_reason ds (normReason a)).count a else 0)
      else ds.count a := by
  rw [count_sample_sampling s ds h a]
  by_cases ha : isRejectedB a = true
  · have haty : a.decision_type = DType.rejected := by
      simpa [isRejectedB, decide_eq_true_iff] using ha
    rw [if_pos ha, count_sampleRejected_rejected hpick _ _ _ ha]
    have h1 : (ds.filter isAcceptedB).count a = 0 := by
      rw [count_filter_ite]
      simp [isAcceptedB, haty]
    have h2 : (ds.filter isPendingB).count a = 0 := by
      rw [count_filter_ite]
      simp [isPendingB, haty]
    omega
  · rw [if_neg ha, count_sampleRejected_not_rejected hpick ha]
    have h2 : (ds.filter isRejectedB).count a = 0 := by
      rw [count_filter_ite]
      simp [Bool.not_eq_true] at ha
      simp [ha]
    have h3 := count_three_partition a ds
    omega

theorem count_reasonGroup_le (ds : List Decision) (r : String) (a : Decision) :
    (reasonGroup ds r).count a ≤ ds.count a := by
  rw [reasonGroup, count_filter_ite]
  split
  · exact le_rfl
  · exact Nat.zero_le _

theorem sample_subperm {pick : List Decision → Nat → List Decision}
    (hpick : ValidPick pick) (s : DecisionSampler) (ds : List Decision) :
    List.Subperm (sample s pick ds).1 ds := by
  by_cases h : ds.length ≤ s.threshold
  · simp only [sample, if_pos h]
    exact List.Subperm.refl _
  · rw [List.subperm_ext_iff]
    intro x _
    rw [count_sample_eq hpick s ds h x]
    by_cases hr : isRejectedB x = true
    · rw [if_pos hr]
      by_cases hmem : normReason x ∈ reasonList ds
      · rw [if_pos hmem]
        exact le_trans ((pickOrKeep_subperm hpick _ _ _).count_le x)
          (count_reasonGroup_le ds (normReason x) x)
      · rw [if_neg hmem]
        exact Nat.zero_le _
    · rw [if_neg hr]

/-! ### Claim theorems: the sampler -/

/-- C2: For every decision list with length at most the threshold,
`sample()` returns the input unchanged — the very same list, same elements and
order — paired with `was_sampled = false`; in particular re-applying `sample`
to an already-sampled list whose size is at or below the threshold is a no-op. -/
theorem c2_noop_below_threshold (s : DecisionSampler)
    (pick : List Decision → Nat → List Decision) (ds : List Decision)
    (h : ds.length ≤ s.threshold) :
    sample s pick ds = (ds, false) := by
  simp only [sample, if_pos h]

theorem c2_witness :
    sample defaultSampler takePick [exA, exR1] = ([exA, exR1], false) :=
  c2_noop_below_threshold defaultSampler takePick [exA, exR1] (by decide)

/-- C10: The output of `sample()` is a sub-multiset of its input: it is a
permutation of a sublist, every output decision is an input decision, no
decision's multiplicity grows, and the output is never longer than the input —
for any behaviour of the pseudorandom source. -/
theorem c10_sample_submultiset (s : DecisionSampler)
    (pick : List Decision → Nat → List Decision) (hpick : ValidPick pick)
    (ds : List Decision) :
    List.Subperm (sample s pick ds).1 ds
    ∧ (∀ d ∈ (sample s pick ds).1, d ∈ ds)
    ∧ (∀ d : Decision, ((sample s pick ds).1).count d ≤ ds.count d)
    ∧ ((sample s pick ds).1).length ≤ ds.length := by
  have h := sample_subperm hpick s ds
  exact ⟨h, fun d hd => h.subset hd, fun d => h.count_le d, h.length_le⟩

theorem c10_witness :
    List.Subperm (sample ⟨1, 1⟩ takePick [exR1, exR2, exA]).1 [exR1, exR2, exA]
    ∧ (∀ d ∈ (sample ⟨1, 1⟩ takePick [exR1, exR2, exA]).1, d ∈ [exR1, exR2, exA])
    ∧ (∀ d : Decision, ((sample ⟨1, 1⟩ takePick [exR1, exR2, exA]).1).count d
        ≤ [exR1, exR2, exA].count d)
    ∧ ((sample ⟨1, 1⟩ takePick [exR1, exR2, exA]).1).length
        ≤ ([exR1, exR2, exA] : List Decision).length :=
  c10_sample_submultiset ⟨1, 1⟩ takePick validPick_take [exR1, exR2, exA]

/-- C1: When the input length exceeds the threshold, the sampled output
contains every accepted decision, every pending decision, and — for each
rejection reason `r` with `c` rejected decisions, missing reasons bucketed as
`"unknown"` — exactly `min c per_reason` decisions of that reason; a reason
group at or below `per_reason` (in particular exactly at it) is kept whole,
independently of the pseudorandom source. -/
theorem c1_sampling_buckets (s : DecisionSampler)
    (pick : List Decision → Nat → List Decision) (hpick : ValidPick pick)
    (ds : List Decision) (h : s.threshold < ds.length) :
    ((sample s pick ds).1.filter isAcceptedB).Perm (ds.filter isAcceptedB)
    ∧ ((sample s pick ds).1.filter isPendingB).Perm (ds.filter isPendingB)
    ∧ (∀ r : String, ((sample s pick ds).1).countP (rejWithB r)
        = min (ds.countP (rejWithB r)) s.per_reason)
    ∧ (∀ r : String, ds.countP (rejWithB r) ≤ s.per_reason →
        ((sample s pick ds).1.filter (rejWithB r)).Perm (ds.filter (rejWithB r))) := by
  have h' : ¬ ds.length ≤ s.threshold := Nat.not_le.2 h
  refine ⟨?_, ?_, ?_, ?_⟩
  · rw [List.perm_iff_count]
    intro a
    rw [count_filter_ite, count_filter_ite]
    by_cases hpa : isAcceptedB a = true
    · have haty : a.decision_type = DType.accepted := by
        simpa [isAcceptedB, decide_eq_true_iff] using hpa
      rw [if_pos hpa, if_pos hpa, count_sample_eq hpick s ds h' a,
        if_neg (by simp [isRejectedB, haty])]
    · rw [if_neg hpa, if_neg hpa]
  · rw [List.perm_iff_count]
    intro a
    rw [count_filter_ite, count_filter_ite]
    by_cases hpa : isPendingB a = true
    · have haty : a.decision_type = DType.pending := by
        simpa [isPendingB, decide_eq_true_iff] using hpa
      rw [if_pos hpa, if_pos hpa, count_sample_eq hpick s ds h' a,
        if_neg (by simp [isRejectedB, haty])]
    · rw [if_neg hpa, if_neg hpa]
  · intro r
    rw [countP_sample_sampling s ds h' (rejWithB r)]
    have h1 : (ds.filter isAcceptedB).countP (rejWithB r) = 0 := by
      refine List.countP_eq_zero.2 ?_
      intro d hd
      have hacc := List.of_mem_filter hd
      simp_all [rejWithB, isAcceptedB, isRejectedB, decide_eq_true_iff]
    have h2 : (ds.filter isPendingB).countP (rejWithB r) = 0 := by
      refine List.countP_eq_zero.2 ?_
      intro d hd
      have hpend := List.of_mem_filter hd
      simp_all [rejWithB, isPendingB, isRejectedB, decide_eq_true_iff]
    rw [h1, h2, countP_rejWith_sampleRejected hpick s.per_reason ds r]
    omega
  · intro r hle
    rw [List.perm_iff_count]
    intro a
    rw [count_filter_ite, count_filter_ite]
    by_cases hra : rejWithB r a = true
    · have hinfo : isRejectedB a = true ∧ normReason a = r := by
        simpa [rejWithB, Bool.and_eq_true, decide_eq_true_iff] using hra
      rw [if_pos hra, if_pos hra, count_sample_eq hpick s ds h' a,
        if_pos hinfo.1, hinfo.2]
      have hgroup : (reasonGroup ds r).length = ds.countP (rejWithB r) :=
        (List.countP_eq_length_filter _ _).symm
      by_cases hrmem : r ∈ reasonList ds
      · rw [if_pos hrmem, pickOrKeep_of_le (hgroup ▸ hle), reasonGroup,
          count_filter_ite, if_pos hra]
      · rw [if_neg hrmem]
        have h0 : ds.countP (rejWithB r) = 0 := countP_rejWithB_eq_zero_iff.2 hrmem
        have hnot : a ∉ ds := fun hmemds =>
          (List.countP_eq_zero.1 h0 a hmemds) hra
        rw [List.count_eq_zero.2 hnot]
    · rw [if_neg hra, if_neg hra]

/-- C5: Every output of `sample()` on an input whose (caller-assigned)
`sequence` keys are strictly ascending — as the ingestion coordinator
guarantees by assigning submission indices — is itself strictly ordered by
ascending `sequence`, for any behaviour of the pseudorandom source: the output
reflects the original submission order, not the reason-grouping order. -/
theorem c5_output_strictly_ordered (s : DecisionSampler)
    (pick : List Decision → Nat → List Decision) (hpick : ValidPick pick)
    (ds : List Decision)
    (hseq : ds.Pairwise (fun a b => seqKey a < seqKey b)) :
    ((sample s pick ds).1).Pairwise (fun a b => seqKey a < seqKey b) := by
  by_cases h : ds.length ≤ s.threshold
  · simpa [sample, if_pos h] using hseq
  · have hsorted : ((sample s pick ds).1).Pairwise seqLE := by
      simp only [sample, if_neg h]
      exact List.sorted_insertionSort seqLE _
    have hnodupds : (ds.map seqKey).Nodup := by
      show (ds.map seqKey).Pairwise (fun a b => a ≠ b)
      exact (List.pairwise_map).2 (hseq.imp fun hlt => ne_of_lt hlt)
    have hsub : List.Subperm ((sample s pick ds).1.map seqKey) (ds.map seqKey) :=
      subperm_map seqKey (sample_subperm hpick s ds)
    have hnodupout : ((sample s pick ds).1.map seqKey).Nodup :=
      subperm_nodup hsub hnodupds
    have hne : ((sample s pick ds).1).Pairwise (fun a b => seqKey a ≠ seqKey b) :=
      (List.pairwise_map).1 hnodupout
    exact (hsorted.and hne).imp fun hab => lt_of_le_of_ne hab.1 hab.2

theorem c5_witness :
    ((sample ⟨1, 1⟩ takePick [exA, exR1, exR2]).1).Pairwise
      (fun a b => seqKey a < seqKey b) :=
  c5_output_strictly_ordered ⟨1, 1⟩ takePick validPick_take [exA, exR1, exR2]
    (by decide)

theorem c1_witness :
    ((sample ⟨1, 1⟩ takePick [exR1, exR2, exA]).1.filter isAcceptedB).Perm
        ([exR1, exR2, exA].filter isAcceptedB)
    ∧ ((sample ⟨1, 1⟩ takePick [exR1, exR2, exA]).1.filter isPendingB).Perm
        ([exR1, exR2, exA].filter isPendingB)
    ∧ (∀ r : String, ((sample ⟨1, 1⟩ takePick [exR1, exR2, exA]).1).countP (rejWithB r)
        = min ([exR1, exR2, exA].countP (rejWithB r)) (1 : Nat))
    ∧ (∀ r : String, [exR1, exR2, exA].countP (rejWithB r) ≤ 1 →
        ((sample ⟨1, 1⟩ takePick [exR1, exR2, exA]).1.filter (rejWithB r)).Perm
          ([exR1, exR2, exA].filter (rejWithB r))) :=
  c1_sampling_buckets ⟨1, 1⟩ takePick validPick_take [exR1, exR2, exA] (by decide)

/-! ### The rejection-reasons dictionary -/

theorem lookup_bump_self (m : List (String × Nat)) (k : String) :
    (bump m k).lookup k = some ((m.lookup k).getD 0 + 1) := by
  induction m with
  | nil => simp [bump]
  | cons p m ih =>
    obtain ⟨k', v⟩ := p
    by_cases hk : k' = k
    · subst hk
      simp [bump]
    · have hk' : (k == k') = false := by
        simpa using fun hcontra => hk hcontra.symm
      simp [bump, hk, hk', ih, List.lookup]

theorem lookup_bump_other (m : List (String × Nat)) (k r : String)
    (hne : r ≠ k) :
    (bump m k).lookup r = m.lookup r := by
  have hrk : (r == k) = false := by simpa using hne
  induction m with
  | nil => simp [bump, hrk, List.lookup]
  | cons p m ih =>
    obtain ⟨k', v⟩ := p
    by_cases hk : k' = k
    · subst hk
      simp [bump, hrk, List.lookup]
    · simp [bump, hk, ih, List.lookup]

theorem lookup_bump_none_iff (m : List (String × Nat)) (k r : String) :
    (bump m k).lookup r = none ↔ m.lookup r = none ∧ r ≠ k := by
  by_cases hrk : r = k
  · subst hrk
    simp [lookup_bump_self]
  · simp [lookup_bump_other m k r hrk, hrk]

theorem reasons_foldl_getD (ds : List Decision) :
    ∀ (m : List (String × Nat)) (r : String),
      (((ds.foldl (fun m d => if isRejectedB d then bump m (normReason d) else m) m).lookup r).getD 0)
        = ((m.lookup r).getD 0) + ds.countP (rejWithB r) := by
  induction ds with
  | nil => intro m r; simp
  | cons d ds ih =>
    intro m r
    simp only [List.foldl_cons, List.countP_cons]
    by_cases hd : isRejectedB d = true
    · rw [if_pos hd, ih]
      by_cases hr : normReason d = r
      · subst hr
        have hrw : rejWithB (normReason d) d = true := by simp [rejWithB, hd]
        rw [lookup_bump_self]
        simp [hrw]
        omega
      · rw [lookup_bump_other _ _ _ (Ne.symm hr)]
        have hrw : rejWithB r d = false := by simp [rejWithB, hd, hr]
        simp [hrw]
    · rw [if_neg hd, ih]
      have hrw : rejWithB r d = false := by
        simp only [isRejectedB, decide_eq_true_iff] at hd
        simp [rejWithB, isRejectedB, hd]
      simp [hrw]

theorem reasons_foldl_none (ds : List Decision) :
    ∀ (m : List (String × Nat)) (r : String),
      ((ds.foldl (fun m d => if isRejectedB d then bump m (normReason d) else m) m).lookup r = none
        ↔ m.lookup r = none ∧ ds.countP (rejWithB r) = 0) := by
  induction ds with
  | nil => intro m r; simp
  | cons d ds ih =>
    intro m r
    simp only [List.foldl_cons, List.countP_cons]
    by_cases hd : isRejectedB d = true
    · rw [if_pos hd, ih, lookup_bump_none_iff]
      by_cases hr : normReason d = r
      · subst hr
        have hrw : rejWithB (normReason d) d = true := by simp [rejWithB, hd]
        simp [hrw]
      · have hrw : rejWithB r d = false := by simp [rejWithB, hd, hr]
        simp [hrw, Ne.symm hr]
    · rw [if_neg hd, ih]
      have hrw : rejWithB r d = false := by
        simp only [isRejectedB, decide_eq_true_iff] at hd
        simp [rejWithB, isRejectedB, hd]
      simp [hrw]

/-! ### Claim theorems: the stats calculator -/

/-- C4: `compute_stats` returns `input_count` = total submitted,
`output_count` = number of accepted decisions, `rejection_rate` =
rejected / input_count with `0.0` on the empty list (which yields all-zero
stats, no division error), and `rejection_reasons` a map holding, for each
reason (missing reason bucketed as `"unknown"`), the number of rejected
decisions carrying it — built from rejected decisions only. -/
theorem c4_compute_stats_fields (ds : List Decision) :
    (compute_stats ds).input_count = ds.length
    ∧ (compute_stats ds).output_count = ds.countP isAcceptedB
    ∧ (compute_stats ds).rejection_rate
        = (if ds.length = 0 then 0 else (ds.countP isRejectedB : Rat) / (ds.length : Rat))
    ∧ (∀ r : String, ((compute_stats ds).rejection_reasons).lookup r
        = if ds.countP (rejWithB r) = 0 then none
          else some (ds.countP (rejWithB r)))
    ∧ compute_stats [] = ⟨0, 0, 0, []⟩ := by
  by_cases hemp : ds.isEmpty
  · have hds : ds = [] := by simpa using hemp
    subst hds
    exact ⟨rfl, rfl, by simp [compute_stats], fun r => by simp [compute_stats], rfl⟩
  · have hreasons : (compute_stats ds).rejection_reasons
        = ds.foldl (fun m d => if isRejectedB d then bump m (normReason d) else m) [] := by
      simp [compute_stats, hemp]
    refine ⟨by simp [compute_stats, hemp], by simp [compute_stats, hemp], ?_, ?_, rfl⟩
    · have hlen : ¬ ds.length = 0 := by
        simpa [List.isEmpty_iff, List.length_eq_zero] using hemp
      simp [compute_stats, hemp, hlen]
    · intro r
      rw [hreasons]
      have hval := reasons_foldl_getD ds [] r
      have hpres := reasons_foldl_none ds [] r
      by_cases h0 : ds.countP (rejWithB r) = 0
      · rw [if_pos h0]
        exact hpres.2 ⟨rfl, h0⟩
      · rw [if_neg h0]
        cases hcase : (ds.foldl (fun m d => if isRejectedB d then bump m (normReason d) else m) []).lookup r with
        | none => exact absurd ((hpres.1 hcase).2) h0
        | some v =>
          rw [hcase] at hval
          simp only [Option.getD_some, List.lookup_nil, Option.getD_none, Nat.zero_add] at hval
          rw [hval]

/-- C3: `compute_stats` totals are conserved — accepted + rejected +
pending = input_count — and the stats stored by `record_step` are those of the
complete pre-sampling decision set: applying `sample()` afterwards does not
change them. -/
theorem c3_stats_totals_full_set :
    (∀ ds : List Decision,
      (compute_stats ds).output_count + ds.countP isRejectedB + ds.countP isPendingB
        = (compute_stats ds).input_count)
    ∧ (∀ (s : DecisionSampler) (pick : List Decision → Nat → List Decision)
        (ds : List Decision) (ev : List Evidence) (res : StepResult),
        record_step s pick ds ev = Except.ok res → ds ≠ [] →
        res.stats = some (compute_stats (normalize ds))) := by
  constructor
  · intro ds
    by_cases hemp : ds.isEmpty
    · have hds : ds = [] := by simpa using hemp
      subst hds
      simp [compute_stats]
    · simp only [compute_stats, if_neg hemp]
      exact countP_three_partition ds
  · intro s pick ds ev res hok hne
    have hstats : res.stats = stepStats ds := by
      simp only [record_step] at hok
      split_ifs at hok <;>
        · simp only [Except.ok.injEq] at hok
          rw [← hok]
    rw [hstats, stepStats, if_neg (by simpa using hne)]

theorem c3_witness :
    ((compute_stats [exA, exR1]).output_count
        + [exA, exR1].countP isRejectedB + [exA, exR1].countP isPendingB
      = (compute_stats [exA, exR1]).input_count)
    ∧ (StepResult.stats ⟨stepStats [exA], stepSummary defaultSampler takePick [exA],
          (storedDecisions defaultSampler takePick [exA]).map (fun d => (d, none))⟩
        = some (compute_stats (normalize [exA]))) :=
  ⟨c3_stats_totals_full_set.1 [exA, exR1],
    c3_stats_totals_full_set.2 defaultSampler takePick [exA] [] _ rfl (by decide)⟩

/-! ### Evidence binding and guardrails -/

theorem lookup_append_right {α β : Type} [BEq α] (l₁ l₂ : List (α × β)) (a : α)
    (h : l₁.lookup a = none) : (l₁ ++ l₂).lookup a = l₂.lookup a := by
  induction l₁ with
  | nil => simp
  | cons p l₁ ih =>
    obtain ⟨k, v⟩ := p
    cases hak : a == k with
    | false =>
      simp only [List.lookup, hak] at h
      simp only [List.cons_append, List.lookup, hak]
      exact ih h
    | true => simp [List.lookup, hak] at h

theorem bindEvidence_getElem? :
    ∀ (ds : List Decision) (ev : List Evidence) (i : Nat),
      (bindEvidence ds ev)[i]? = (ds[i]?).map (fun d => (d, ev[i]?)) := by
  intro ds
  induction ds with
  | nil => intro ev i; cases ev <;> simp [bindEvidence]
  | cons d ds ih =>
    intro ev i
    cases ev with
    | nil =>
      cases i with
      | zero => simp [bindEvidence]
      | succ n => simp [bindEvidence, ih []]
    | cons e es =>
      cases i with
      | zero => simp [bindEvidence]
      | succ n => simp [bindEvidence, ih es]

/-- C6: With a non-empty evidence list, `record_step` rejects the whole
submission (input error, nothing persisted) when no decisions were stored or
when there are more evidence items than stored decisions; otherwise it
persists, binding `evidence[i]` positionally to `decision[i]` — so the first
`len(evidence)` decisions receive evidence and the remainder stay unbound. -/
theorem c6_evidence_binding (s : DecisionSampler)
    (pick : List Decision → Nat → List Decision)
    (ds : List Decision) (ev : List Evidence)
    (hev : ev ≠ [])
    (hg1 : ds.length ≤ MAX_DECISIONS_PER_STEP)
    (hg2 : ev.length ≤ MAX_EVIDENCE_PER_STEP) :
    (storedDecisions s pick ds = [] →
      record_step s pick ds ev = Except.error StepError.evidenceBinding)
    ∧ ((storedDecisions s pick ds).length < ev.length →
      record_step s pick ds ev = Except.error StepError.evidenceBinding)
    ∧ (ev.length ≤ (storedDecisions s pick ds).length →
      record_step s pick ds ev
        = Except.ok ⟨stepStats ds, stepSummary s pick ds,
            bindEvidence (storedDecisions s pick ds) ev⟩
      ∧ (∀ i : Nat, (bindEvidence (storedDecisions s pick ds) ev)[i]?
          = ((storedDecisions s pick ds)[i]?).map (fun d => (d, ev[i]?)))) := by
  have hng1 : ¬ MAX_DECISIONS_PER_STEP < ds.length := Nat.not_lt.2 hg1
  have hng2 : ¬ MAX_EVIDENCE_PER_STEP < ev.length := Nat.not_lt.2 hg2
  have hevE : ¬ ev.isEmpty = true := by simpa using hev
  refine ⟨?_, ?_, ?_⟩
  · intro hstored
    simp [record_step, hng1, hng2, hevE, hstored]
  · intro hlt
    by_cases hse : (storedDecisions s pick ds).isEmpty
    · simp [record_step, hng1, hng2, hevE, hse]
    · simp [record_step, hng1, hng2, hevE, hse, hlt]
  · intro hle
    have hpos : 0 < (storedDecisions s pick ds).length :=
      lt_of_lt_of_le (List.length_pos.2 hev) hle
    have hse : ¬ (storedDecisions s pick ds).isEmpty = true := by
      simpa using List.length_pos.1 hpos
    have hnlt : ¬ (storedDecisions s pick ds).length < ev.length := Nat.not_lt.2 hle
    exact ⟨by simp [record_step, hng1, hng2, hevE, hse, hnlt],
      fun i => bindEvidence_getElem? _ _ i⟩

theorem c6_witness :
    (storedDecisions defaultSampler takePick [exA, exR1] = [] →
      record_step defaultSampler takePick [exA, exR1] [exEv]
        = Except.error StepError.evidenceBinding)
    ∧ ((storedDecisions defaultSampler takePick [exA, exR1]).length < [exEv].length →
      record_step defaultSampler takePick [exA, exR1] [exEv]
        = Except.error StepError.evidenceBinding)
    ∧ ([exEv].length ≤ (storedDecisions defaultSampler takePick [exA, exR1]).length →
      record_step defaultSampler takePick [exA, exR1] [exEv]
        = Except.ok ⟨stepStats [exA, exR1], stepSummary defaultSampler takePick [exA, exR1],
            bindEvidence (storedDecisions defaultSampler takePick [exA, exR1]) [exEv]⟩
      ∧ (∀ i : Nat,
          (bindEvidence (storedDecisions defaultSampler takePick [exA, exR1]) [exEv])[i]?
            = ((storedDecisions defaultSampler takePick [exA, exR1])[i]?).map
                (fun d => (d, ([exEv] : List Evidence)[i]?)))) :=
  c6_evidence_binding defaultSampler takePick [exA, exR1] [exEv]
    (by decide) (by decide) (by decide)

/-- C7: `record_step` rejects a submission whose decision count or
evidence count exceeds the configured limits with `GuardrailExceeded` before
any stats, sampling or persistence work (modelled by the early error return),
and never raises that error for submissions at or below both limits. -/
theorem c7_guardrails (s : DecisionSampler)
    (pick : List Decision → Nat → List Decision)
    (ds : List Decision) (ev : List Evidence) :
    ((MAX_DECISIONS_PER_STEP < ds.length ∨ MAX_EVIDENCE_PER_STEP < ev.length) →
      record_step s pick ds ev = Except.error StepError.guardrailExceeded)
    ∧ (ds.length ≤ MAX_DECISIONS_PER_STEP → ev.length ≤ MAX_EVIDENCE_PER_STEP →
      record_step s pick ds ev ≠ Except.error StepError.guardrailExceeded) := by
  constructor
  · rintro (h | h)
    · simp [record_step, h]
    · by_cases h1 : MAX_DECISIONS_PER_STEP < ds.length
      · simp [record_step, h1]
      · simp [record_step, h1, h]
  · intro h1 h2
    have hn1 : ¬ MAX_DECISIONS_PER_STEP < ds.length := Nat.not_lt.2 h1
    have hn2 : ¬ MAX_EVIDENCE_PER_STEP < ev.length := Nat.not_lt.2 h2
    simp only [record_step, if_neg hn1, if_neg hn2]
    split_ifs <;> simp

theorem c7_witness :
    record_step defaultSampler takePick [] (List.replicate 1001 exEv)
        = Except.error StepError.guardrailExceeded
    ∧ record_step defaultSampler takePick [exA] [exEv]
        ≠ Except.error StepError.guardrailExceeded :=
  ⟨(c7_guardrails defaultSampler takePick [] (List.replicate 1001 exEv)).1
      (Or.inr (by rw [List.length_replicate]; norm_num [MAX_EVIDENCE_PER_STEP])),
    (c7_guardrails defaultSampler takePick [exA] [exEv]).2 (by decide) (by decide)⟩

/-! ### Sequence assignment by the coordinator -/

/-- C8 counterexample: The coordinator uses `md.setdefault("sequence", idx)`:
a decision submitted at index 0 whose metadata already carries
`"sequence" = 99` keeps 99, so its sequence does *not* equal its index in the
submitted list. -/
theorem c8_counterexample :
    (normalize [exPre]).map seqKey = [99] ∧ ((99 : Int) = 0 → False) := by
  exact ⟨by decide, by decide⟩

/-- C8 amended: The coordinator assigns each decision's `"sequence"`
metadata deterministically from submission order as a *default*: a decision
whose metadata lacks a `"sequence"` key receives its index in the submitted
list, while a pre-existing caller-supplied value is preserved
(`dict.setdefault` semantics), before stats computation and sampling. -/
theorem c8_sequence_default_assignment (ds : List Decision) (i : Nat)
    (d : Decision) (h : ds[i]? = some d) :
    ((normalize ds)[i]?).map seqKey
      = some (((d.metadata.getD []).lookup "sequence").getD (i : Int)) := by
  have hkey : seqKey (normalizeOne i d)
      = ((d.metadata.getD []).lookup "sequence").getD (i : Int) := by
    cases hseq : (d.metadata.getD []).lookup "sequence" with
    | some v => simp [normalizeOne, seqKey, hseq]
    | none =>
      have happ : ((d.metadata.getD [] ++ [("sequence", (i : Int))]).lookup "sequence")
          = some (i : Int) := by
        rw [lookup_append_right _ _ _ hseq]
        simp [List.lookup]
      simp [normalizeOne, seqKey, hseq, happ]
  simp [normalize, List.getElem?_mapIdx, h, hkey]

theorem c8_witness :
    ((normalize [exPre])[0]?).map seqKey
      = some (((exPre.metadata.getD []).lookup "sequence").getD (0 : Int)) :=
  c8_sequence_default_assignment [exPre] 0 exPre rfl

/-! ### The pseudorandom source -/

/-- C9: The sampler's output is determined by the state of the
pseudorandom source it draws from: two valid states of `random.sample`
(modelled as two `ValidPick` functions) produce different outputs on the same
input.  Since the code draws from the shared module-level `random` generator
with no per-invocation seeding, reproducibility for a given seed is not
provided by `sample` itself. -/
theorem c9_output_depends_on_generator_state :
    ∃ p₁ p₂ : List Decision → Nat → List Decision,
      ValidPick p₁ ∧ ValidPick p₂ ∧
        sample ⟨0, 1⟩ p₁ [exR1, exR2] ≠ sample ⟨0, 1⟩ p₂ [exR1, exR2] :=
  ⟨takePick, revPick, validPick_take, validPick_rev, by decide⟩

end XRay
